import Mathlib

/-!
Verification of the wire codec and handshake engine of the handshake repository.

Shallow embedding of the Go sources (`message/*.go`, `common/*.go`,
`peer/peer.go`, `checker/checker.go`) of the `handshake` repository.
Machine integers are modelled as `Nat` (or `Int` for the signed fields),
with `% 256` per byte where the Go code truncates; byte streams are
`List Nat`; fallible operations return `Except`/`Option`.
-/

namespace Handshake

/-! ## Byte-level primitives

These model `binary.LittleEndian.PutUintN` / `binary.BigEndian.PutUint16`
as the list of bytes they deposit, in the order they appear on the wire. -/

/-- Little-endian 2-byte serialization (`binary.LittleEndian.PutUint16`). -/
def putUint16LE (v : Nat) : List Nat :=
  [v % 256, v / 2 ^ 8 % 256]

/-- Little-endian 4-byte serialization (`binary.LittleEndian.PutUint32`). -/
def putUint32LE (v : Nat) : List Nat :=
  [v % 256, v / 2 ^ 8 % 256, v / 2 ^ 16 % 256, v / 2 ^ 24 % 256]

/-- Little-endian 8-byte serialization (`binary.LittleEndian.PutUint64`). -/
def putUint64LE (v : Nat) : List Nat :=
  [v % 256, v / 2 ^ 8 % 256, v / 2 ^ 16 % 256, v / 2 ^ 24 % 256,
   v / 2 ^ 32 % 256, v / 2 ^ 40 % 256, v / 2 ^ 48 % 256, v / 2 ^ 56 % 256]

/-- Big-endian 2-byte serialization (`binary.BigEndian.PutUint16`), used
only for the port field. -/
def putUint16BE (v : Nat) : List Nat :=
  [v / 2 ^ 8 % 256, v % 256]

/-- Go's `uint32(x)` conversion applied to a signed 32-bit value held as
an `Int`: two's-complement truncation into `[0, 2^32)`. -/
def int32ToUint32 (v : Int) : Nat :=
  (v.emod (2 ^ 32)).toNat

/-- Go's `uint64(x)` conversion applied to a signed 64-bit value held as
an `Int`. -/
def int64ToUint64 (v : Int) : Nat :=
  (v.emod (2 ^ 64)).toNat

/-- Model of `writeElement` on an `int32`: `PutUint32(w, LittleEndian, uint32(e))`. -/
def putInt32LE (v : Int) : List Nat :=
  putUint32LE (int32ToUint32 v)

/-- Model of `writeElement` on an `int64`: `PutUint64(w, LittleEndian, uint64(e))`. -/
def putInt64LE (v : Int) : List Nat :=
  putUint64LE (int64ToUint64 v)

/-! ## Variable-length integers (`WriteVarIntBuf`, message/codec) -/

/-- Model of `WriteVarIntBuf` from the `message` package: the bytes it writes to `w`.
The source switches on `val`: below `0xfd` a single byte `uint8(val)`;
up to `math.MaxUint16` the marker `0xfd` plus `PutUint16` little-endian;
up to `math.MaxUint32` the marker `0xfe` plus `PutUint32` little-endian;
otherwise the marker `0xff` (written first, on its own) plus `PutUint64`
little-endian. -/
def WriteVarIntBuf (val : Nat) : List Nat :=
  if val < 0xfd then
    [val % 256]
  else if val ≤ 0xffff then
    0xfd :: putUint16LE val
  else if val ≤ 0xffffffff then
    0xfe :: putUint32LE val
  else
    0xff :: putUint64LE val

/-- Model of `writeVarStringBuf`: a varint of the byte length followed by the raw
bytes of the string. -/
def writeVarStringBuf (s : List Nat) : List Nat :=
  WriteVarIntBuf s.length ++ s

/-! ## Network addresses (`common.NetAddress`, `writeNetAddressBuf`) -/

/-- A Go `net.IP` value as it matters here: `nil`, an IPv4 address (what
`net.ParseIP` yields for dotted-quad input), or a raw 16-byte form. -/
inductive IPAddr
  | nilIP
  | v4 (a b c d : Nat)
  | raw (bytes : List Nat)
deriving DecidableEq, Repr

/-- The 16 bytes deposited for the IP field by `writeNetAddressBuf`:
Go runs `copy(ip[:], na.IP.To16())` on a zero-initialised `[16]byte`
when `na.IP != nil`. `To16` maps an IPv4 address to its
IPv4-mapped-IPv6 form `::ffff:a.b.c.d`. -/
def ipTo16 : IPAddr → List Nat
  | .nilIP => List.replicate 16 0
  | .v4 a b c d =>
      List.replicate 10 0 ++ [0xff, 0xff, a % 256, b % 256, c % 256, d % 256]
  | .raw bytes => bytes.take 16 ++ List.replicate (16 - (bytes.take 16).length) 0

/-- Model of `common.NetAddress`. The Go struct also carries a `Timestamp`
(`time.Time`); we keep it as the unix value that a 4-byte wire timestamp
would serialize, so that the claim about timestamp emission is statable. -/
structure NetAddress where
  Timestamp : Nat
  Services : Nat
  IP : IPAddr
  Port : Nat
deriving DecidableEq, Repr

/-- Model of `writeNetAddressBuf(w, pver, na, ts, buf)` from the `message` package:
services via `binary.LittleEndian.PutUint64`, then the 16 IP bytes, then
the port via `binary.BigEndian.PutUint16`. The `ts` parameter appears in
the signature but the body never reads it. -/
def writeNetAddressBuf (na : NetAddress) (ts : Bool) : List Nat :=
  putUint64LE na.Services ++ (ipTo16 na.IP ++ putUint16BE na.Port)

/-- Modelled from the spec's words for the C4 comparison:
`writePeerAddress(writer, addr, includeTimestamp)` emits a leading 4-byte
timestamp exactly when `includeTimestamp` is true, then the service
bitfield little-endian, the 16 IP bytes, and the big-endian port. -/
def specWritePeerAddress (na : NetAddress) (includeTimestamp : Bool) : List Nat :=
  (if includeTimestamp then putUint32LE na.Timestamp else []) ++
    putUint64LE na.Services ++ ipTo16 na.IP ++ putUint16BE na.Port

/-! ## Version message (`message.MsgVersion`) -/

/-- Model of `message.MsgVersion`. `UserAgent` is kept as its UTF-8 bytes. -/
structure MsgVersion where
  ProtocolVersion : Int
  Services : Nat
  Timestamp : Int
  AddrYou : NetAddress
  AddrMe : NetAddress
  Nonce : Nat
  UserAgent : List Nat
  LastBlock : Int
  DisableRelayTx : Bool
deriving DecidableEq, Repr

/-- Model of `MsgVersion.BtcEncode`: `writeElements(w, ProtocolVersion, Services,
Timestamp.Unix())`, then `writeNetAddress` for `AddrYou` and `AddrMe`
(both with `ts = false`), then the nonce, the user-agent varstring and
`LastBlock`. The function returns right after `LastBlock`; no byte is
written for `DisableRelayTx`. -/
def MsgVersion.BtcEncode (m : MsgVersion) : List Nat :=
  putInt32LE m.ProtocolVersion ++ putUint64LE m.Services ++
    putInt64LE m.Timestamp ++
    writeNetAddressBuf m.AddrYou false ++ writeNetAddressBuf m.AddrMe false ++
    putUint64LE m.Nonce ++ writeVarStringBuf m.UserAgent ++
    putInt32LE m.LastBlock

/-- Modelled from the spec's words for the C1 comparison: the
`VersionPayload` grammar of §6, which ends with
`RelaySuppressed:u8(bool)` after `LastBlock:i32`. -/
def specVersionPayload (m : MsgVersion) : List Nat :=
  putInt32LE m.ProtocolVersion ++ putUint64LE m.Services ++
    putInt64LE m.Timestamp ++
    (putUint64LE m.AddrYou.Services ++ ipTo16 m.AddrYou.IP ++
      putUint16BE m.AddrYou.Port) ++
    (putUint64LE m.AddrMe.Services ++ ipTo16 m.AddrMe.IP ++
      putUint16BE m.AddrMe.Port) ++
    putUint64LE m.Nonce ++
    (WriteVarIntBuf m.UserAgent.length ++ m.UserAgent) ++
    putInt32LE m.LastBlock ++
    [if m.DisableRelayTx then 1 else 0]

/-- The spec's `VersionPayload` grammar truncated before the
`RelaySuppressed` byte: the order the code actually emits. -/
def specVersionPayloadNoRelay (m : MsgVersion) : List Nat :=
  putInt32LE m.ProtocolVersion ++ putUint64LE m.Services ++
    putInt64LE m.Timestamp ++
    (putUint64LE m.AddrYou.Services ++ ipTo16 m.AddrYou.IP ++
      putUint16BE m.AddrYou.Port) ++
    (putUint64LE m.AddrMe.Services ++ ipTo16 m.AddrMe.IP ++
      putUint16BE m.AddrMe.Port) ++
    putUint64LE m.Nonce ++
    (WriteVarIntBuf m.UserAgent.length ++ m.UserAgent) ++
    putInt32LE m.LastBlock

/-! ## Message framing (`message.WriteMessageWithEncodingN`) -/

/-- Constant `CommandSize`: fixed size of all commands in the message header. -/
def CommandSize : Nat := 12

/-- Constant `MessageHeaderSize`: bytes in a message header. -/
def MessageHeaderSize : Nat := 24

/-- Model of `message.WriteMessageWithEncodingN`, parameterized by the hash the
checksum truncates (`chainhash.DoubleHashB payload = sha256(sha256 payload)`,
modelled as `hash (hash payload)`); `cmd` is the command name's bytes and
`payload` the bytes `msg.BtcEncode` produced. The source rejects commands
longer than `CommandSize`, zero-pads the command into a `[12]byte`, and
writes magic (4B LE), command (12B), `uint32(len(payload))` (4B LE),
the first 4 checksum bytes, then the payload verbatim. -/
def WriteMessageWithEncodingN (hash : List Nat → List Nat) (btcnet : Nat)
    (cmd : List Nat) (payload : List Nat) : Except String (List Nat) :=
  if CommandSize < cmd.length then
    Except.error "command is too long"
  else
    Except.ok
      (putUint32LE btcnet ++
        ((cmd ++ List.replicate (CommandSize - cmd.length) 0) ++
          (putUint32LE payload.length ++
            ((hash (hash payload)).take 4 ++ payload))))

/-! ## Negotiation wait loop (`checker.WaitToFinishNegotiation`)

The goroutine repeatedly calls `readMessage`; the `select` in the caller
returns the first value sent on the `verack` channel, or the timeout error
once the 1-second timer fires. We model the frames the stream delivers
within that window as a list of read outcomes; an exhausted list means the
timer fires first. -/

/-- The messages `readMessage` can hand back that matter to the loop's
type switch. -/
inductive RemoteMsg
  | sendAddrV2
  | verack
  | otherKnown
deriving DecidableEq, Repr

/-- One `readMessage` call's outcome: `wire.ErrUnknownMessage`, some other
read/framing error, or a decoded message. -/
inductive ReadOutcome
  | unknownMessage
  | readFailure (e : String)
  | msg (m : RemoteMsg)
deriving DecidableEq, Repr

/-- What the caller of `WaitToFinishNegotiation` observes. -/
inductive NegotiationResult
  | ok
  | readErr (e : String)
  | invalidHandshake
  | timeout
deriving DecidableEq, Repr

/-- Model of `checker.WaitToFinishNegotiation`: `ErrUnknownMessage` continues the
loop; any other read error is sent on the channel; `MsgSendAddrV2` is
skipped; `MsgVerAck` sends `nil`; any other message sends
`wire.ErrInvalidHandshake`. If the frame list is exhausted without a send,
the 1-second `time.After` branch returns the timeout error. -/
def WaitToFinishNegotiation : List ReadOutcome → NegotiationResult
  | [] => .timeout
  | .unknownMessage :: rest => WaitToFinishNegotiation rest
  | .readFailure e :: _ => .readErr e
  | .msg .sendAddrV2 :: rest => WaitToFinishNegotiation rest
  | .msg .verack :: _ => .ok
  | .msg .otherKnown :: _ => .invalidHandshake

/-! ## Peer address validation (`peer.handshake`'s regexp) -/

/-- Consume a `\d{1,3}` octet followed by nothing else: take the maximal
digit run; the anchored pattern can only succeed when that run has length
1 to 3 (a longer run leaves a digit where `\.`/`:` must match, and fewer
digits than the run leaves a digit next as well). -/
def chompOctet (s : List Char) : Option (List Char) :=
  let ds := s.takeWhile Char.isDigit
  if 1 ≤ ds.length ∧ ds.length ≤ 3 then some (s.dropWhile Char.isDigit)
  else none

/-- Consume one expected literal character. -/
def chompChar (c : Char) : List Char → Option (List Char)
  | [] => none
  | x :: xs => if x = c then some xs else none

/-- The anchored pattern
`^\d\x7b1,3\x7d\.\d\x7b1,3\x7d\.\d\x7b1,3\x7d\.\d\x7b1,3\x7d:\d+$`
compiled by `peer.handshake`: four 1-to-3-digit octets separated by dots,
a colon, and one or more digits, covering the whole string. -/
def matchPeerAddress (s : String) : Bool :=
  (do
    let r ← chompOctet s.data
    let r ← chompChar '.' r
    let r ← chompOctet r
    let r ← chompChar '.' r
    let r ← chompOctet r
    let r ← chompChar '.' r
    let r ← chompOctet r
    let r ← chompChar ':' r
    pure (!r.isEmpty && r.all Char.isDigit)).getD false

/-! ## One handshake attempt (`peer.handshake`) -/

/-- The stream-affecting operations an attempt performs, in order. -/
inductive NetAction
  | dial
  | setWriteDeadline
  | closeConn
  | writeVersionMsg
  | writeVerackMsg
deriving DecidableEq, Repr

/-- Failure modes of one attempt. -/
inductive AttemptErr
  | invalidAddress
  | ioErr (e : String)
  | addrErr (e : String)
deriving DecidableEq, Repr

/-- Outcomes of the externally-owned transport operations consumed by one
attempt: `none` means the operation succeeds, `some e` that it returns
error `e`. -/
structure NetEnv where
  dialErr : Option String
  deadlineErr : Option String
  writeVersionErr : Option String
  writeVerackErr : Option String
deriving DecidableEq, Repr

/-- Model of `net.SplitHostPort` on the unbracketed shapes reachable here: split at
the last colon; fail when there is no colon or the host part still holds
a colon. -/
def splitHostPort (s : List Char) : Option (List Char × List Char) :=
  match (s.reverse.takeWhile (· ≠ ':')).length, s.contains ':' with
  | n, true =>
      let host := s.take (s.length - n - 1)
      let port := s.drop (s.length - n)
      if host.contains ':' then none else some (host, port)
  | _, false => none

/-- Model of `strconv.ParseUint(port, 10, 16)`: digits only, non-empty, value below
`2^16`. -/
def parseUint16 (s : List Char) : Option Nat :=
  if !s.isEmpty && s.all Char.isDigit then
    let v := s.foldl (fun acc c => acc * 10 + (c.toNat - 48)) 0
    if v < 2 ^ 16 then some v else none
  else none

/-- Model of `peer.handshake`: validate the address against the pattern (failing
with no I/O at all), dial, set the write deadline (on failure the source
returns the error without closing the connection), split host and port
(closing on failure), parse the port (closing on failure), then write the
version and verack messages (closing on failure). Returns the attempt's
result together with the ordered list of stream operations performed. -/
def handshake (peerAddress : String) (env : NetEnv) :
    Except AttemptErr Unit × List NetAction :=
  if !matchPeerAddress peerAddress then
    (.error .invalidAddress, [])
  else
    match env.dialErr with
    | some e => (.error (.ioErr e), [.dial])
    | none =>
      match env.deadlineErr with
      | some e => (.error (.ioErr e), [.dial, .setWriteDeadline])
      | none =>
        match splitHostPort peerAddress.data with
        | none =>
            (.error (.addrErr "SplitHostPort"),
              [.dial, .setWriteDeadline, .closeConn])
        | some (_ip, port) =>
          match parseUint16 port with
          | none =>
              (.error (.addrErr "ParseUint"),
                [.dial, .setWriteDeadline, .closeConn])
          | some _ =>
            match env.writeVersionErr with
            | some e =>
                (.error (.ioErr e),
                  [.dial, .setWriteDeadline, .writeVersionMsg, .closeConn])
            | none =>
              match env.writeVerackErr with
              | some e =>
                  (.error (.ioErr e),
                    [.dial, .setWriteDeadline, .writeVersionMsg,
                     .writeVerackMsg, .closeConn])
              | none =>
                  (.ok (),
                    [.dial, .setWriteDeadline, .writeVersionMsg,
                     .writeVerackMsg])

/-! ## Whole-attempt retry (`peer.Handshake`) -/

/-- Constant `HandshakeRetries` from `peer`. -/
def HandshakeRetries : Nat := 3

/-- The `for i := 0; i < HandshakeRetries; i++` loop body: `attempts i` is
the outcome of the `i`-th call to `handshake` (the environment differs per
attempt). Returns the final result paired with the number of attempts
made. -/
def retryLoop {Conn : Type} (attempts : Nat → Except String Conn) :
    Nat → Nat → String → Except String Conn × Nat
  | i, 0, lastErr =>
      (.error ("handshake failed after " ++ toString HandshakeRetries ++
        " retries with the error " ++ lastErr), i)
  | i, fuel + 1, _lastErr =>
      match attempts i with
      | .ok c => (.ok c, i + 1)
      | .error e => retryLoop attempts (i + 1) fuel e

/-- Model of `peer.Handshake`: retry the whole attempt up to `HandshakeRetries`
times, returning the first success immediately, else the wrapped error. -/
def Handshake {Conn : Type} (attempts : Nat → Except String Conn) :
    Except String Conn × Nat :=
  retryLoop attempts 0 HandshakeRetries ""

/-! ## Scratch buffer pool (`common.BinaryFreeList`) -/

/-- Constant `binaryFreeListMaxItems`: the channel capacity. -/
def binaryFreeListMaxItems : Nat := 1024

/-- Model of `common.BinaryFreeList`, a `chan []byte` of capacity
`binaryFreeListMaxItems`; each queued buffer is kept at its full 8-byte
backing capacity (the `Return` contract requires cap 8). -/
structure BinaryFreeList where
  bufs : List (List Nat)
deriving DecidableEq, Repr

/-- Go's `buf[:8]` reslice: length-8 view of the 8-byte backing array. -/
def resliceTo8 (b : List Nat) : List Nat :=
  b.take 8 ++ List.replicate (8 - (b.take 8).length) 0

/-- Model of `BinaryFreeList.Borrow`: take a pooled buffer when the channel has
one, else `make([]byte, 8)`, and reslice it to `buf[:8]`. -/
def BinaryFreeList.Borrow (l : BinaryFreeList) :
    List Nat × BinaryFreeList :=
  match l.bufs with
  | [] => (List.replicate 8 0, l)
  | b :: rest => (resliceTo8 b, ⟨rest⟩)

/-- Model of `BinaryFreeList.Return`: non-blocking send; when the channel is full
the buffer is dropped and the pool is unchanged. -/
def BinaryFreeList.Return (l : BinaryFreeList) (b : List Nat) :
    BinaryFreeList :=
  if l.bufs.length < binaryFreeListMaxItems then ⟨l.bufs ++ [b]⟩ else l

/-! ### Bounds-checked buffer operations

Go panics on an out-of-range index or reslice; `none` models that panic,
so `isSome` states that an operation never indexes the scratch buffer out
of range. -/

/-- Assignment `buf[i] = v` with Go's bounds check. -/
def setByte (buf : List Nat) (i v : Nat) : Option (List Nat) :=
  if i < buf.length then some (buf.set i v) else none

/-- Reslice `buf[:n]` with Go's bounds check (against the modelled backing). -/
def sliceTo (buf : List Nat) (n : Nat) : Option (List Nat) :=
  if n ≤ buf.length then some (buf.take n) else none

/-- Model of `binary.LittleEndian.PutUint16(buf[i:i+2], v)` with bounds checks. -/
def putUint16LEAt (buf : List Nat) (i v : Nat) : Option (List Nat) := do
  let b ← setByte buf i (v % 256)
  setByte b (i + 1) (v / 2 ^ 8 % 256)

/-- Model of `binary.LittleEndian.PutUint32(buf[i:i+4], v)` with bounds checks. -/
def putUint32LEAt (buf : List Nat) (i v : Nat) : Option (List Nat) := do
  let b ← putUint16LEAt buf i (v % 2 ^ 16)
  putUint16LEAt b (i + 2) (v / 2 ^ 16 % 2 ^ 16)

/-- Model of `binary.LittleEndian.PutUint64(buf[i:i+8], v)` with bounds checks. -/
def putUint64LEAt (buf : List Nat) (i v : Nat) : Option (List Nat) := do
  let b ← putUint32LEAt buf i (v % 2 ^ 32)
  putUint32LEAt b (i + 4) (v / 2 ^ 32 % 2 ^ 32)

/-- Model of `WriteVarIntBuf` with every scratch-buffer access bounds-checked,
returning the bytes written to `w` (`none` would be a Go panic). The
`default` branch writes `buf[:1]` first and then the whole 8-byte buffer
after `PutUint64(buf, val)`. -/
def WriteVarIntBufChecked (val : Nat) (buf : List Nat) :
    Option (List Nat) :=
  if val < 0xfd then do
    let b ← setByte buf 0 (val % 256)
    sliceTo b 1
  else if val ≤ 0xffff then do
    let b ← setByte buf 0 0xfd
    let b ← putUint16LEAt b 1 (val % 2 ^ 16)
    sliceTo b 3
  else if val ≤ 0xffffffff then do
    let b ← setByte buf 0 0xfe
    let b ← putUint32LEAt b 1 (val % 2 ^ 32)
    sliceTo b 5
  else do
    let b ← setByte buf 0 0xff
    let marker ← sliceTo b 1
    let b ← putUint64LEAt b 0 (val % 2 ^ 64)
    let rest ← sliceTo b 8
    pure (marker ++ rest)

/-! ## Generic list helpers shared by the frame-layout proofs -/

theorem take_length_append {α : Type} : ∀ (u v : List α), (u ++ v).take u.length = u
  | [], _ => rfl
  | a :: u, v => congrArg (a :: ·) (take_length_append u v)

theorem drop_length_append {α : Type} : ∀ (u v : List α), (u ++ v).drop u.length = v
  | [], _ => rfl
  | _ :: u, v => drop_length_append u v

theorem take_append_of_length {α : Type} (u v : List α) (n : Nat)
    (h : u.length = n) : (u ++ v).take n = u := by
  subst h; exact take_length_append u v

theorem drop_append_of_length {α : Type} (u v : List α) (n : Nat)
    (h : u.length = n) : (u ++ v).drop n = v := by
  subst h; exact drop_length_append u v

/-- Decomposition of a `4 ++ 12 ++ 4 ++ 4 ++ rest` byte layout — the
shape of a message header followed by its payload. -/
theorem append_parts_header (A B C D P : List Nat) (hA : A.length = 4)
    (hB : B.length = 12) (hC : C.length = 4) (hD : D.length = 4) :
    (A ++ (B ++ (C ++ (D ++ P)))).take 4 = A ∧
    ((A ++ (B ++ (C ++ (D ++ P)))).drop 4).take 12 = B ∧
    ((A ++ (B ++ (C ++ (D ++ P)))).drop 16).take 4 = C ∧
    ((A ++ (B ++ (C ++ (D ++ P)))).drop 20).take 4 = D ∧
    (A ++ (B ++ (C ++ (D ++ P)))).drop 24 = P := by
  have d4 : (A ++ (B ++ (C ++ (D ++ P)))).drop 4 = B ++ (C ++ (D ++ P)) :=
    drop_append_of_length _ _ 4 hA
  have d16 : (A ++ (B ++ (C ++ (D ++ P)))).drop 16 = C ++ (D ++ P) := by
    rw [show (16 : Nat) = 4 + 12 from rfl, ← List.drop_drop, d4]
    exact drop_append_of_length _ _ 12 hB
  have d20 : (A ++ (B ++ (C ++ (D ++ P)))).drop 20 = D ++ P := by
    rw [show (20 : Nat) = 16 + 4 from rfl, ← List.drop_drop, d16]
    exact drop_append_of_length _ _ 4 hC
  have d24 : (A ++ (B ++ (C ++ (D ++ P)))).drop 24 = P := by
    rw [show (24 : Nat) = 20 + 4 from rfl, ← List.drop_drop, d20]
    exact drop_append_of_length _ _ 4 hD
  refine ⟨take_append_of_length _ _ 4 hA, ?_, ?_, ?_, d24⟩
  · rw [d4]; exact take_append_of_length _ _ 12 hB
  · rw [d16]; exact take_append_of_length _ _ 4 hC
  · rw [d20]; exact take_append_of_length _ _ 4 hD

theorem ipTo16_length (ip : IPAddr) : (ipTo16 ip).length = 16 := by
  cases ip with
  | nilIP => rfl
  | v4 a b c d => rfl
  | raw bytes =>
      simp only [ipTo16, List.length_append, List.length_take,
        List.length_replicate]
      omega

theorem resliceTo8_length (b : List Nat) : (resliceTo8 b).length = 8 := by
  simp only [resliceTo8, List.length_append, List.length_take,
    List.length_replicate]
  omega

theorem takeWhile_append_all {p : Char → Bool} (l1 l2 : List Char)
    (h : l1.all p) : (l1 ++ l2).takeWhile p = l1 ++ l2.takeWhile p := by
  induction l1 with
  | nil => rfl
  | cons a t ih =>
      simp only [List.all_cons, Bool.and_eq_true] at h
      simp [List.takeWhile_cons, h.1, ih h.2]

theorem dropWhile_append_all {p : Char → Bool} (l1 l2 : List Char)
    (h : l1.all p) : (l1 ++ l2).dropWhile p = l2.dropWhile p := by
  induction l1 with
  | nil => rfl
  | cons a t ih =>
      simp only [List.all_cons, Bool.and_eq_true] at h
      simp [List.dropWhile_cons, h.1, ih h.2]

/-- A maximal 1-to-3-digit run followed by a non-digit separator is
consumed by the octet step, leaving the separator. -/
theorem chompOctet_digits (ds rest : List Char) (c : Char)
    (hd : ds.all Char.isDigit) (h1 : 1 ≤ ds.length) (h3 : ds.length ≤ 3)
    (hc : Char.isDigit c = false) :
    chompOctet (ds ++ c :: rest) = some (c :: rest) := by
  have ht : (ds ++ c :: rest).takeWhile Char.isDigit = ds := by
    rw [takeWhile_append_all _ _ hd]
    simp [List.takeWhile_cons, hc]
  have hdr : (ds ++ c :: rest).dropWhile Char.isDigit = c :: rest := by
    rw [dropWhile_append_all _ _ hd]
    simp [List.dropWhile_cons, hc]
  simp [chompOctet, ht, hdr, h1, h3]

/-- A read stream consisting only of skippable frames (unknown commands
and `sendaddrv2`) drives the wait loop to its timeout branch. -/
theorem waitToFinish_skippable (evs : List ReadOutcome)
    (h : ∀ ev ∈ evs, ev = ReadOutcome.unknownMessage ∨
      ev = ReadOutcome.msg RemoteMsg.sendAddrV2) :
    WaitToFinishNegotiation evs = NegotiationResult.timeout := by
  induction evs with
  | nil => rfl
  | cons ev tl ih =>
      rcases h ev (List.mem_cons_self ev tl) with he | he <;> subst he
      · exact ih fun x hx => h x (List.mem_cons_of_mem _ hx)
      · exact ih fun x hx => h x (List.mem_cons_of_mem _ hx)

end Handshake

namespace Handshake

/-- C6: the varint encoder emits values `< 0xFD` as a single byte, values
in `[0xFD, 0xFFFF]` as marker `0xFD` plus 2 bytes little-endian, values in
`[0x10000, 0xFFFFFFFF]` as marker `0xFE` plus 4 bytes little-endian, and
larger 64-bit values as marker `0xFF` plus 8 bytes little-endian. -/
theorem writeVarIntBuf_cases (val : Nat) (hw : val < 2 ^ 64) :
    (val < 0xfd → WriteVarIntBuf val = [val]) ∧
    (0xfd ≤ val → val ≤ 0xffff →
      WriteVarIntBuf val = [0xfd, val % 256, val / 2 ^ 8 % 256]) ∧
    (0x10000 ≤ val → val ≤ 0xffffffff →
      WriteVarIntBuf val =
        [0xfe, val % 256, val / 2 ^ 8 % 256, val / 2 ^ 16 % 256,
         val / 2 ^ 24 % 256]) ∧
    (0x100000000 ≤ val →
      WriteVarIntBuf val =
        [0xff, val % 256, val / 2 ^ 8 % 256, val / 2 ^ 16 % 256,
         val / 2 ^ 24 % 256, val / 2 ^ 32 % 256, val / 2 ^ 40 % 256,
         val / 2 ^ 48 % 256, val / 2 ^ 56 % 256]) := by
  refine ⟨?_, ?_, ?_, ?_⟩
  · intro h
    have hlt : val < 256 := by omega
    simp [WriteVarIntBuf, h, Nat.mod_eq_of_lt hlt]
  · intro h1 h2
    simp [WriteVarIntBuf, putUint16LE, Nat.not_lt.mpr h1, h2]
  · intro h1 h2
    have hn1 : ¬ val < 0xfd := by omega
    have hn2 : ¬ val ≤ 0xffff := by omega
    simp [WriteVarIntBuf, putUint32LE, hn1, hn2, h2]
  · intro h1
    have hn1 : ¬ val < 0xfd := by omega
    have hn2 : ¬ val ≤ 0xffff := by omega
    have hn3 : ¬ val ≤ 0xffffffff := by omega
    simp [WriteVarIntBuf, putUint64LE, hn1, hn2, hn3]

/-- C6 witness: the boundary values `0xFC`, `0xFD`, `0xFFFF`, `0x10000`,
`0xFFFFFFFF` and `0x100000000` encode with the widths the claim assigns. -/
theorem writeVarIntBuf_cases_witness :
    WriteVarIntBuf 0xfc = [0xfc] ∧
    WriteVarIntBuf 0xfd = [0xfd, 0xfd, 0] ∧
    WriteVarIntBuf 0xffff = [0xfd, 0xff, 0xff] ∧
    WriteVarIntBuf 0x10000 = [0xfe, 0, 0, 1, 0] ∧
    WriteVarIntBuf 0xffffffff = [0xfe, 0xff, 0xff, 0xff, 0xff] ∧
    WriteVarIntBuf 0x100000000 = [0xff, 0, 0, 0, 0, 1, 0, 0, 0] := by
  refine ⟨?_, ?_, ?_, ?_, ?_, ?_⟩
  · exact (writeVarIntBuf_cases 0xfc (by norm_num)).1 (by norm_num)
  · exact (writeVarIntBuf_cases 0xfd (by norm_num)).2.1 (by norm_num) (by norm_num)
  · exact (writeVarIntBuf_cases 0xffff (by norm_num)).2.1 (by norm_num) (by norm_num)
  · exact (writeVarIntBuf_cases 0x10000 (by norm_num)).2.2.1 (by norm_num) (by norm_num)
  · exact (writeVarIntBuf_cases 0xffffffff (by norm_num)).2.2.1 (by norm_num) (by norm_num)
  · exact (writeVarIntBuf_cases 0x100000000 (by norm_num)).2.2.2 (by norm_num)

/-- C5: for every network id, command of at most 12 bytes and payload,
`WriteMessageWithEncodingN` produces a frame of exactly `24 + len(payload)`
bytes whose first 4 bytes are the little-endian network id, next 12 the
zero-padded command, next 4 the little-endian payload length, next 4 the
first 4 bytes of the double-applied hash of the payload, followed by the
payload verbatim. -/
theorem writeMessage_frame_layout (hash : List Nat → List Nat) (btcnet : Nat)
    (cmd payload : List Nat) (hcmd : cmd.length ≤ 12)
    (hhash : 4 ≤ (hash (hash payload)).length) :
    ∃ frame,
      WriteMessageWithEncodingN hash btcnet cmd payload = Except.ok frame ∧
      frame.length = 24 + payload.length ∧
      frame.take 4 = putUint32LE btcnet ∧
      (frame.drop 4).take 12 = cmd ++ List.replicate (12 - cmd.length) 0 ∧
      (frame.drop 16).take 4 = putUint32LE payload.length ∧
      (frame.drop 20).take 4 = (hash (hash payload)).take 4 ∧
      frame.drop 24 = payload := by
  have hguard : ¬ CommandSize < cmd.length := by
    simp only [CommandSize]; omega
  have hB : (cmd ++ List.replicate (CommandSize - cmd.length) 0).length = 12 := by
    simp only [CommandSize, List.length_append, List.length_replicate]; omega
  have hD : ((hash (hash payload)).take 4).length = 4 := by
    simp only [List.length_take]; omega
  refine ⟨putUint32LE btcnet ++
      ((cmd ++ List.replicate (CommandSize - cmd.length) 0) ++
        (putUint32LE payload.length ++
          ((hash (hash payload)).take 4 ++ payload))), ?_, ?_, ?_, ?_, ?_, ?_, ?_⟩
  · simp [WriteMessageWithEncodingN, hguard]
  · simp only [List.length_append, List.length_replicate, List.length_take,
      putUint32LE, List.length_cons, List.length_nil, CommandSize]
    omega
  · exact (append_parts_header (putUint32LE btcnet) _
      (putUint32LE payload.length) _ _ rfl hB rfl hD).1
  · exact (append_parts_header (putUint32LE btcnet) _
      (putUint32LE payload.length) _ _ rfl hB rfl hD).2.1
  · exact (append_parts_header (putUint32LE btcnet) _
      (putUint32LE payload.length) _ _ rfl hB rfl hD).2.2.1
  · exact (append_parts_header (putUint32LE btcnet) _
      (putUint32LE payload.length) _ _ rfl hB rfl hD).2.2.2.1
  · exact (append_parts_header (putUint32LE btcnet) _
      (putUint32LE payload.length) _ _ rfl hB rfl hD).2.2.2.2

/-- C5 witness: a concrete frame for the `verack` command bytes, a 3-byte
payload and a 32-byte-output hash: the header layout and total size hold. -/
theorem writeMessage_frame_layout_witness :
    ∃ frame,
      WriteMessageWithEncodingN (fun _ => List.replicate 32 0) 0x12141c16
          [118, 101, 114, 97, 99, 107] [1, 2, 3] = Except.ok frame ∧
      frame.length = 24 + [1, 2, 3].length ∧
      frame.take 4 = putUint32LE 0x12141c16 ∧
      (frame.drop 4).take 12 =
        [118, 101, 114, 97, 99, 107] ++
          List.replicate (12 - [118, 101, 114, 97, 99, 107].length) 0 ∧
      (frame.drop 16).take 4 = putUint32LE [1, 2, 3].length ∧
      (frame.drop 20).take 4 =
        ((fun (_ : List Nat) => List.replicate 32 0)
          ((fun (_ : List Nat) => List.replicate 32 0) [1, 2, 3])).take 4 ∧
      frame.drop 24 = [1, 2, 3] :=
  writeMessage_frame_layout (fun _ => List.replicate 32 0) 0x12141c16
    [118, 101, 114, 97, 99, 107] [1, 2, 3] (by decide) (by decide)

/-- C1 counterexample: for a concrete version message with
`DisableRelayTx = true`, the bytes `BtcEncode` emits are not the spec's
payload ending in the relay-suppression byte — the claim as stated fails
at this input. -/
theorem btcEncode_relay_counterexample :
    MsgVersion.BtcEncode
        ⟨70016, 0, 0, ⟨0, 0, IPAddr.nilIP, 0⟩, ⟨0, 0, IPAddr.nilIP, 0⟩,
          1, [], 0, true⟩ ≠
      specVersionPayload
        ⟨70016, 0, 0, ⟨0, 0, IPAddr.nilIP, 0⟩, ⟨0, 0, IPAddr.nilIP, 0⟩,
          1, [], 0, true⟩ := by
  decide

/-- C1 amended: `BtcEncode` emits protocol version, services, timestamp,
recipient address, sender address, nonce, user-agent varstring and
last-known-height in that order, and stops there: no relay-suppression
byte is emitted, and `DisableRelayTx` has no effect on the output. -/
theorem btcEncode_field_order (m : MsgVersion) :
    MsgVersion.BtcEncode m = specVersionPayloadNoRelay m ∧
    (∀ b : Bool,
      MsgVersion.BtcEncode { m with DisableRelayTx := b } =
        MsgVersion.BtcEncode m) := by
  exact ⟨rfl, fun b => rfl⟩

/-- C4 counterexample: with `includeTimestamp = true` on a concrete
address record, `writeNetAddressBuf` does not emit the leading timestamp
the claim requires — the output for `true` lacks the timestamp bytes. -/
theorem writeNetAddressBuf_timestamp_counterexample :
    writeNetAddressBuf ⟨5, 0, IPAddr.nilIP, 0⟩ true ≠
      specWritePeerAddress ⟨5, 0, IPAddr.nilIP, 0⟩ true := by
  decide

/-- C4 amended: `writeNetAddressBuf` emits the 8-byte little-endian
service bitfield, then exactly 16 IP bytes (all-zero for a nil address,
IPv4 in IPv4-mapped-IPv6 form), then the big-endian port; the
`includeTimestamp` argument is ignored — no timestamp is ever emitted and
the output for `true` equals the output for `false`. -/
theorem writeNetAddressBuf_layout (na : NetAddress) (ts : Bool) :
    (writeNetAddressBuf na ts).length = 26 ∧
    (writeNetAddressBuf na ts).take 8 = putUint64LE na.Services ∧
    ((writeNetAddressBuf na ts).drop 8).take 16 = ipTo16 na.IP ∧
    (writeNetAddressBuf na ts).drop 24 = putUint16BE na.Port ∧
    (ipTo16 na.IP).length = 16 ∧
    ipTo16 IPAddr.nilIP = List.replicate 16 0 ∧
    (∀ a b c d, ipTo16 (IPAddr.v4 a b c d) =
      List.replicate 10 0 ++ [0xff, 0xff, a % 256, b % 256, c % 256, d % 256]) ∧
    writeNetAddressBuf na ts = writeNetAddressBuf na false := by
  have hB : (ipTo16 na.IP).length = 16 := ipTo16_length na.IP
  have hA : (putUint64LE na.Services).length = 8 := rfl
  have hassoc : writeNetAddressBuf na ts =
      (putUint64LE na.Services ++ ipTo16 na.IP) ++ putUint16BE na.Port := by
    simp [writeNetAddressBuf, List.append_assoc]
  refine ⟨?_, ?_, ?_, ?_, hB, rfl, fun a b c d => rfl, rfl⟩
  · simp [writeNetAddressBuf, putUint64LE, putUint16BE, hB]
  · rw [writeNetAddressBuf]
    exact take_append_of_length _ _ 8 hA
  · rw [writeNetAddressBuf,
      drop_append_of_length (putUint64LE na.Services) _ 8 hA]
    exact take_append_of_length _ _ 16 hB

  · rw [hassoc]
    refine drop_append_of_length _ _ 24 ?_
    simp [List.length_append, hA, hB]

/-- C3: the negotiation wait loop skips unknown-command frames and
`sendaddrv2`, succeeds on `verack`, fails with the invalid-handshake
error on any other recognized message, propagates a read error, and —
when the window's frames are exhausted without a terminating frame, in
particular when every frame is skippable — returns the timeout error. -/
theorem waitToFinishNegotiation_classifies (rest evs : List ReadOutcome)
    (e : String)
    (hskip : ∀ ev ∈ evs, ev = ReadOutcome.unknownMessage ∨
      ev = ReadOutcome.msg RemoteMsg.sendAddrV2) :
    WaitToFinishNegotiation (ReadOutcome.unknownMessage :: rest) =
      WaitToFinishNegotiation rest ∧
    WaitToFinishNegotiation (ReadOutcome.msg RemoteMsg.sendAddrV2 :: rest) =
      WaitToFinishNegotiation rest ∧
    WaitToFinishNegotiation (ReadOutcome.msg RemoteMsg.verack :: rest) =
      NegotiationResult.ok ∧
    WaitToFinishNegotiation (ReadOutcome.msg RemoteMsg.otherKnown :: rest) =
      NegotiationResult.invalidHandshake ∧
    WaitToFinishNegotiation (ReadOutcome.readFailure e :: rest) =
      NegotiationResult.readErr e ∧
    WaitToFinishNegotiation ([] : List ReadOutcome) =
      NegotiationResult.timeout ∧
    WaitToFinishNegotiation evs = NegotiationResult.timeout :=
  ⟨rfl, rfl, rfl, rfl, rfl, rfl, waitToFinish_skippable evs hskip⟩

/-- C3 witness: a stream delivering an unknown frame, a `sendaddrv2` and
nothing else times out; the per-frame classifications hold concretely. -/
theorem waitToFinishNegotiation_classifies_witness :
    WaitToFinishNegotiation
        [ReadOutcome.unknownMessage, ReadOutcome.msg RemoteMsg.sendAddrV2] =
      NegotiationResult.timeout ∧
    WaitToFinishNegotiation
        [ReadOutcome.unknownMessage, ReadOutcome.msg RemoteMsg.verack] =
      NegotiationResult.ok :=
  ⟨(waitToFinishNegotiation_classifies []
      [ReadOutcome.unknownMessage, ReadOutcome.msg RemoteMsg.sendAddrV2]
      "reset" (by decide)).2.2.2.2.2.2,
   ((waitToFinishNegotiation_classifies
        [ReadOutcome.msg RemoteMsg.verack] [] "reset"
        (by intro ev h; cases h)).1).trans
     ((waitToFinishNegotiation_classifies [] [] "reset"
        (by intro ev h; cases h)).2.2.1)⟩

/-- C2 (code bug evidence): when the dial succeeds and setting the write
deadline fails, the attempt returns the error while its stream-operation
trace contains the dial but no close — the connection is left open. -/
theorem handshake_deadline_failure_skips_close :
    (handshake "1.2.3.4:5" ⟨none, some "deadline error", none, none⟩).1 =
      Except.error (AttemptErr.ioErr "deadline error") ∧
    NetAction.dial ∈
      (handshake "1.2.3.4:5" ⟨none, some "deadline error", none, none⟩).2 ∧
    NetAction.closeConn ∉
      (handshake "1.2.3.4:5" ⟨none, some "deadline error", none, none⟩).2 := by
  refine ⟨rfl, by decide, by decide⟩

/-- C7: an address string the pattern rejects makes the attempt fail with
the address-format error before any stream operation: the trace is empty,
so nothing was dialed, written or closed. -/
theorem handshake_invalid_address_no_io (addr : String) (env : NetEnv)
    (h : matchPeerAddress addr = false) :
    handshake addr env = (Except.error AttemptErr.invalidAddress, []) := by
  simp [handshake, h]

/-- C7 witness: `"localhost:8333"` fails the pattern and the attempt
performs no stream operation. -/
theorem handshake_invalid_address_no_io_witness :
    matchPeerAddress "localhost:8333" = false ∧
    handshake "localhost:8333" ⟨none, none, none, none⟩ =
      (Except.error AttemptErr.invalidAddress, []) :=
  ⟨by decide, handshake_invalid_address_no_io _ _ (by decide)⟩

/-- C8: the wrapper retries the whole attempt up to 3 times: the first
success is returned with the number of attempts made so far and no
further attempt, and after 3 failures the error reports the retry count
and the last cause. -/
theorem handshake_retry_behavior (Conn : Type)
    (attempts : Nat → Except String Conn) (c : Conn) (e0 e1 e2 : String) :
    (attempts 0 = Except.error e0 → attempts 1 = Except.error e1 →
      attempts 2 = Except.error e2 →
      Handshake attempts =
        (Except.error
          ("handshake failed after 3 retries with the error " ++ e2), 3)) ∧
    (attempts 0 = Except.ok c → Handshake attempts = (Except.ok c, 1)) ∧
    (attempts 0 = Except.error e0 → attempts 1 = Except.ok c →
      Handshake attempts = (Except.ok c, 2)) ∧
    (attempts 0 = Except.error e0 → attempts 1 = Except.error e1 →
      attempts 2 = Except.ok c →
      Handshake attempts = (Except.ok c, 3)) := by
  refine ⟨?_, ?_, ?_, ?_⟩
  · intro h0 h1 h2
    simp [Handshake, retryLoop, HandshakeRetries, h0, h1, h2]
    rfl
  · intro h0
    simp [Handshake, retryLoop, HandshakeRetries, h0]
  · intro h0 h1
    simp [Handshake, retryLoop, HandshakeRetries, h0, h1]
  · intro h0 h1 h2
    simp [Handshake, retryLoop, HandshakeRetries, h0, h1, h2]

/-- C8 witness: with every attempt refused, the wrapper makes exactly 3
attempts and surfaces the count together with the last cause. -/
theorem handshake_retry_behavior_witness :
    Handshake (fun _ => (Except.error "connection refused" :
        Except String Unit)) =
      (Except.error
        ("handshake failed after 3 retries with the error " ++
          "connection refused"), 3) :=
  (handshake_retry_behavior Unit
    (fun _ => Except.error "connection refused") () "connection refused"
    "connection refused" "connection refused").1 rfl rfl rfl

/-- C9: the address validation is a pure digit-pattern check — every
string shaped as four 1-to-3-digit groups separated by dots, a colon and
at least one digit passes it, whatever the digit values, and the attempt
then proceeds straight to the dial as its first stream operation. -/
theorem handshake_digit_pattern_dials
    (a b c d e : List Char) (env : NetEnv)
    (ha : a.all Char.isDigit) (ha1 : 1 ≤ a.length) (ha3 : a.length ≤ 3)
    (hb : b.all Char.isDigit) (hb1 : 1 ≤ b.length) (hb3 : b.length ≤ 3)
    (hc : c.all Char.isDigit) (hc1 : 1 ≤ c.length) (hc3 : c.length ≤ 3)
    (hd : d.all Char.isDigit) (hd1 : 1 ≤ d.length) (hd3 : d.length ≤ 3)
    (he : e.all Char.isDigit) (he1 : e ≠ []) :
    matchPeerAddress
        ⟨a ++ ('.' :: (b ++ ('.' :: (c ++ ('.' :: (d ++ (':' :: e)))))))⟩ =
      true ∧
    (handshake
        ⟨a ++ ('.' :: (b ++ ('.' :: (c ++ ('.' :: (d ++ (':' :: e)))))))⟩
        env).2.head? = some NetAction.dial := by
  have hm : matchPeerAddress
      ⟨a ++ ('.' :: (b ++ ('.' :: (c ++ ('.' :: (d ++ (':' :: e)))))))⟩ =
        true := by
    have m1 := chompOctet_digits a
      (b ++ ('.' :: (c ++ ('.' :: (d ++ (':' :: e)))))) '.' ha ha1 ha3
      (by decide)
    have m2 := chompOctet_digits b
      (c ++ ('.' :: (d ++ (':' :: e)))) '.' hb hb1 hb3 (by decide)
    have m3 := chompOctet_digits c (d ++ (':' :: e)) '.' hc hc1 hc3
      (by decide)
    have m4 := chompOctet_digits d e ':' hd hd1 hd3 (by decide)
    have hne : e.isEmpty = false := by
      cases e with
      | nil => exact absurd rfl he1
      | cons x xs => rfl
    simp [matchPeerAddress, m1, m2, m3, m4, chompChar, hne, he]
  refine ⟨hm, ?_⟩
  rw [handshake, hm]
  simp only [Bool.not_true, Bool.false_eq_true, if_false]
  rcases env with ⟨de, dl, wv, wk⟩
  cases de with
  | some err => rfl
  | none =>
    cases dl with
    | some err => rfl
    | none =>
      cases hsp : splitHostPort
          (String.data
            ⟨a ++ ('.' :: (b ++ ('.' :: (c ++ ('.' :: (d ++ (':' :: e)))))))⟩)
        with
      | none => rfl
      | some pr =>
        obtain ⟨ip, port⟩ := pr
        cases hpu : parseUint16 port with
        | none => simp [hpu]
        | some v =>
          cases wv with
          | some err => simp [hpu]
          | none =>
            cases wk with
            | some err => simp [hpu]
            | none => simp [hpu]

/-- C9 witness: `"999.999.999.999:1"` — octets far above 255 — passes the
validation and the attempt's first stream operation is the dial. -/
theorem handshake_digit_pattern_dials_witness :
    matchPeerAddress
        ⟨['9', '9', '9'] ++ ('.' :: (['9', '9', '9'] ++ ('.' ::
          (['9', '9', '9'] ++ ('.' :: (['9', '9', '9'] ++
            (':' :: ['1'])))))))⟩ = true ∧
    (handshake
        ⟨['9', '9', '9'] ++ ('.' :: (['9', '9', '9'] ++ ('.' ::
          (['9', '9', '9'] ++ ('.' :: (['9', '9', '9'] ++
            (':' :: ['1'])))))))⟩
        ⟨none, none, none, none⟩).2.head? = some NetAction.dial :=
  handshake_digit_pattern_dials ['9', '9', '9'] ['9', '9', '9']
    ['9', '9', '9'] ['9', '9', '9'] ['1'] ⟨none, none, none, none⟩
    (by decide) (by decide) (by decide) (by decide) (by decide) (by decide)
    (by decide) (by decide) (by decide) (by decide) (by decide) (by decide)
    (by decide) (by decide)


/-- C10: `Borrow` always yields a buffer of length exactly 8 — reusing the
queued buffer when one is present, allocating fresh otherwise; with a
length-8 scratch buffer every bounds-checked access of the varint encoder
stays in range (the checked run returns exactly the bytes of the pure
encoder rather than a panic); and `Return` on a full pool leaves the pool
unchanged. -/
theorem binaryFreeList_safety (l : BinaryFreeList) (b buf : List Nat)
    (rest : List (List Nat)) (val : Nat) (hv : val < 2 ^ 64)
    (hbuf : buf.length = 8) :
    ((l.Borrow).1).length = 8 ∧
    (l.bufs = [] → l.Borrow = (List.replicate 8 0, l)) ∧
    (l.bufs = b :: rest → l.Borrow = (resliceTo8 b, ⟨rest⟩)) ∧
    (l.bufs.length = binaryFreeListMaxItems → l.Return b = l) ∧
    WriteVarIntBufChecked val buf = some (WriteVarIntBuf val) := by
  refine ⟨?_, ?_, ?_, ?_, ?_⟩
  · rcases l with ⟨_ | ⟨hd, tl⟩⟩
    · rfl
    · exact resliceTo8_length hd
  · intro h
    rcases l with ⟨bufs⟩
    simp only at h
    subst h
    rfl
  · intro h
    rcases l with ⟨bufs⟩
    simp only at h
    subst h
    rfl
  · intro h
    simp [BinaryFreeList.Return, h]
  · rcases buf with _ | ⟨a0, _ | ⟨a1, _ | ⟨a2, _ | ⟨a3, _ | ⟨a4, _ |
      ⟨a5, _ | ⟨a6, _ | ⟨a7, _ | ⟨a8, tl⟩⟩⟩⟩⟩⟩⟩⟩⟩ <;>
      simp only [List.length_nil, List.length_cons] at hbuf <;>
      try omega
    by_cases h1 : val < 0xfd
    · have hc : WriteVarIntBufChecked val
          [a0, a1, a2, a3, a4, a5, a6, a7] = some [val % 256] := by
        rw [WriteVarIntBufChecked, if_pos h1]
        rfl
      rw [hc, WriteVarIntBuf, if_pos h1]
    · by_cases h2 : val ≤ 0xffff
      · have hc : WriteVarIntBufChecked val
            [a0, a1, a2, a3, a4, a5, a6, a7] =
              some [0xfd, val % 2 ^ 16 % 256, val % 2 ^ 16 / 2 ^ 8 % 256] := by
          rw [WriteVarIntBufChecked, if_neg h1, if_pos h2]
          rfl
        rw [hc, WriteVarIntBuf, if_neg h1, if_pos h2]
        simp only [putUint16LE, Option.some.injEq, List.cons.injEq,
          and_true, true_and]
        omega
      · by_cases h3 : val ≤ 0xffffffff
        · have hc : WriteVarIntBufChecked val
              [a0, a1, a2, a3, a4, a5, a6, a7] =
                some [0xfe, val % 2 ^ 32 % 2 ^ 16 % 256,
                  val % 2 ^ 32 % 2 ^ 16 / 2 ^ 8 % 256,
                  val % 2 ^ 32 / 2 ^ 16 % 2 ^ 16 % 256,
                  val % 2 ^ 32 / 2 ^ 16 % 2 ^ 16 / 2 ^ 8 % 256] := by
            rw [WriteVarIntBufChecked, if_neg h1, if_neg h2, if_pos h3]
            rfl
          rw [hc, WriteVarIntBuf, if_neg h1, if_neg h2, if_pos h3]
          simp only [putUint32LE, Option.some.injEq, List.cons.injEq,
            and_true, true_and]
          omega
        · have hc : WriteVarIntBufChecked val
              [a0, a1, a2, a3, a4, a5, a6, a7] =
                some [0xff, val % 2 ^ 64 % 2 ^ 32 % 2 ^ 16 % 256,
                  val % 2 ^ 64 % 2 ^ 32 % 2 ^ 16 / 2 ^ 8 % 256,
                  val % 2 ^ 64 % 2 ^ 32 / 2 ^ 16 % 2 ^ 16 % 256,
                  val % 2 ^ 64 % 2 ^ 32 / 2 ^ 16 % 2 ^ 16 / 2 ^ 8 % 256,
                  val % 2 ^ 64 / 2 ^ 32 % 2 ^ 32 % 2 ^ 16 % 256,
                  val % 2 ^ 64 / 2 ^ 32 % 2 ^ 32 % 2 ^ 16 / 2 ^ 8 % 256,
                  val % 2 ^ 64 / 2 ^ 32 % 2 ^ 32 / 2 ^ 16 % 2 ^ 16 % 256,
                  val % 2 ^ 64 / 2 ^ 32 % 2 ^ 32 / 2 ^ 16 % 2 ^ 16 / 2 ^ 8 %
                    256] := by
            rw [WriteVarIntBufChecked, if_neg h1, if_neg h2, if_neg h3]
            rfl
          rw [hc, WriteVarIntBuf, if_neg h1, if_neg h2, if_neg h3]
          simp only [putUint64LE, Option.some.injEq, List.cons.injEq,
            and_true, true_and]
          omega

/-- C10 witness: on the empty pool a fresh length-8 buffer is handed out,
and the checked varint encoder on a concrete length-8 scratch buffer
returns exactly the pure encoder's bytes. -/
theorem binaryFreeList_safety_witness :
    ((BinaryFreeList.Borrow ⟨[]⟩).1).length = 8 ∧
    WriteVarIntBufChecked 300 [9, 9, 9, 9, 9, 9, 9, 9] =
      some (WriteVarIntBuf 300) :=
  ⟨(binaryFreeList_safety ⟨[]⟩ [] [9, 9, 9, 9, 9, 9, 9, 9] [] 300
      (by norm_num) (by decide)).1,
   (binaryFreeList_safety ⟨[]⟩ [] [9, 9, 9, 9, 9, 9, 9, 9] [] 300
      (by norm_num) (by decide)).2.2.2.2⟩

end Handshake
